import Mathlib

/-
Shallow embedding of the spinwait crate (src/spinwait/src/lib.rs).

The `SpinWait` struct holds an `AtomicU32` counter `count` and a `u32`
`yield_threshold`.  The spec and the code both assume a single logical
writer per wait episode, so the atomic counter is modelled as a plain
natural number kept below 2^32, with every increment taken modulo 2^32
(the documented wrapping behaviour of `AtomicU32::fetch_add`).

`spin_once` performs one wait step: it increments the counter and then,
from the post-increment value, either yields to the scheduler
(`std::thread::yield_now`), executes a CPU spin hint
(`std::hint::spin_loop`), or sleeps for `1u64 << count` nanoseconds
(`thread::sleep(Duration::from_nanos(1 << self.count.load(..)))`).
The host processor count (`num_cpus::get()`) is an input of each step.
The effectful tail of each branch is reified as an `SpinAction` value.

The `1u64 << count` shift is modelled with release-mode Rust semantics:
the shift amount is masked to the bit width, so the requested duration is
`2 ^ (count % 64)` nanoseconds (in a debug build the same shift would
panic for `count ≥ 64`; under either semantics the duration is
`2 ^ count` only while `count < 64`).
-/

/-- The modulus of a `u32`: the counter field wraps at this value. -/
def u32Mod : Nat := 2 ^ 32

/-- The observable effect of one `spin_once` call: `yield_now()`,
`spin_loop()`, or `thread::sleep` of the given number of nanoseconds. -/
inductive SpinAction where
  | yieldNow : SpinAction
  | spinHint : SpinAction
  | sleepNanos : Nat → SpinAction
deriving DecidableEq, Repr

/-- The `SpinWait` struct: the `AtomicU32` iteration counter and the
immutable `u32` yield threshold. -/
structure SpinWait where
  count : Nat
  yield_threshold : Nat
deriving DecidableEq, Repr

/-- `SpinWait::new()`: count 0, yield threshold 10. -/
def SpinWait.new : SpinWait := ⟨0, 10⟩

/-- `SpinWait::with_threshold(t)`: count 0, yield threshold `t`. -/
def SpinWait.with_threshold (t : Nat) : SpinWait := ⟨0, t⟩

/-- `SpinWait::next_spin_will_yield()`:
`self.count.load(Relaxed) >= self.yield_threshold`. -/
def SpinWait.next_spin_will_yield (s : SpinWait) : Bool :=
  decide (s.count ≥ s.yield_threshold)

/-- The nanosecond count requested by the backoff branch,
`1u64 << c` with the shift amount masked to the u64 bit width. -/
def sleepDuration (c : Nat) : Nat := 2 ^ (c % 64)

/-- `SpinWait::spin_once(&self)`: `fetch_add(1, Relaxed)` on the counter
(wrapping at 2^32), then the three-way branch of the source, read off the
post-increment counter value.  `numCpus` is the value `num_cpus::get()`
returns during this call. -/
def SpinWait.spin_once (s : SpinWait) (numCpus : Nat) : SpinWait × SpinAction :=
  let s' : SpinWait := ⟨(s.count + 1) % u32Mod, s.yield_threshold⟩
  if s'.next_spin_will_yield || numCpus == 1 then
    (s', SpinAction.yieldNow)
  else if s'.count < 4 then
    (s', SpinAction.spinHint)
  else
    (s', SpinAction.sleepNanos (sleepDuration s'.count))

/-- `SpinWait::reset()`: stores 0 into the counter. -/
def SpinWait.reset (s : SpinWait) : SpinWait := ⟨0, s.yield_threshold⟩

/-- `n` consecutive `spin_once` calls on a host with `cpus` processors,
returning the final state. -/
def stepN : Nat → SpinWait → Nat → SpinWait
  | 0, s, _ => s
  | n + 1, s, cpus => stepN n (s.spin_once cpus).1 cpus

/-- `SpinWait::spin_until(&self, condition)`:
`while !condition() { self.spin_once(); }`, run with explicit fuel so the
possibly endless loop stays a total function.  The predicate is modelled
as a function of the evaluation index (its `k`-th call returns `p k`,
capturing an external condition that changes over time); `k` is the index
of the next evaluation.  On termination it returns the final state, the
total number of predicate evaluations and the total number of
`spin_once` calls; `none` means the fuel ran out with the condition
still false. -/
def SpinWait.spin_until :
    Nat → (Nat → Bool) → Nat → SpinWait → Nat → Option (SpinWait × Nat × Nat)
  | 0, _, _, _, _ => none
  | f + 1, p, k, s, cpus =>
    if p k then some (s, 1, 0)
    else
      match SpinWait.spin_until f p (k + 1) (s.spin_once cpus).1 cpus with
      | none => none
      | some (s', evals, steps) => some (s', evals + 1, steps + 1)

/-- One method call that can mutate a `SpinWait` value: a wait step on a
host with a given processor count, or a reset.  The read-only methods
(`count()` and `next_spin_will_yield()`) are pure loads and appear in the
model as functions without a state component. -/
inductive SpinOp where
  | step : Nat → SpinOp
  | reset : SpinOp
deriving DecidableEq, Repr

/-- Apply one mutating method call. -/
def applyOp (s : SpinWait) : SpinOp → SpinWait
  | SpinOp.step cpus => (s.spin_once cpus).1
  | SpinOp.reset => s.reset

/-- Apply a sequence of mutating method calls, oldest first. -/
def applyOps (s : SpinWait) (ops : List SpinOp) : SpinWait :=
  ops.foldl applyOp s

/-- The predicate `n == 2` used as a concrete condition for witnesses. -/
def exampleCond (n : Nat) : Bool := n == 2

/- Helper lemmas shared between claims. -/

theorem spin_once_fst (s : SpinWait) (cpus : Nat) :
    (s.spin_once cpus).1 = ⟨(s.count + 1) % u32Mod, s.yield_threshold⟩ := by
  simp only [SpinWait.spin_once]
  split_ifs <;> rfl

theorem spin_once_count (s : SpinWait) (cpus : Nat) :
    ((s.spin_once cpus).1).count = (s.count + 1) % u32Mod := by
  rw [spin_once_fst]

theorem spin_once_threshold (s : SpinWait) (cpus : Nat) :
    ((s.spin_once cpus).1).yield_threshold = s.yield_threshold := by
  rw [spin_once_fst]

theorem u32Mod_pos : 0 < u32Mod := by
  unfold u32Mod
  positivity

theorem stepN_count (n : Nat) (s : SpinWait) (cpus : Nat) (h : s.count < u32Mod) :
    (stepN n s cpus).count = (s.count + n) % u32Mod := by
  induction n generalizing s with
  | zero =>
    simpa [stepN] using (Nat.mod_eq_of_lt h).symm
  | succ n ih =>
    have hlt : ((s.spin_once cpus).1).count < u32Mod := by
      rw [spin_once_count]
      exact Nat.mod_lt _ u32Mod_pos
    calc (stepN (n + 1) s cpus).count
        = (stepN n (s.spin_once cpus).1 cpus).count := rfl
      _ = (((s.spin_once cpus).1).count + n) % u32Mod := ih _ hlt
      _ = ((s.count + 1) % u32Mod + n) % u32Mod := by rw [spin_once_count]
      _ = (s.count + 1 + n) % u32Mod := Nat.mod_add_mod _ _ _
      _ = (s.count + (n + 1)) % u32Mod := by ring_nf

theorem stepN_threshold (n : Nat) (s : SpinWait) (cpus : Nat) :
    (stepN n s cpus).yield_threshold = s.yield_threshold := by
  induction n generalizing s with
  | zero => rfl
  | succ n ih =>
    calc (stepN (n + 1) s cpus).yield_threshold
        = (stepN n (s.spin_once cpus).1 cpus).yield_threshold := rfl
      _ = ((s.spin_once cpus).1).yield_threshold := ih _
      _ = s.yield_threshold := spin_once_threshold s cpus

/-- The action of `spin_once` as a function of the post-increment counter
value, the threshold and the processor count. -/
theorem spin_once_snd (s : SpinWait) (cpus : Nat) :
    (s.spin_once cpus).2 =
      if (s.count + 1) % u32Mod ≥ s.yield_threshold ∨ cpus = 1 then
        SpinAction.yieldNow
      else if (s.count + 1) % u32Mod < 4 then
        SpinAction.spinHint
      else
        SpinAction.sleepNanos (sleepDuration ((s.count + 1) % u32Mod)) := by
  simp only [SpinWait.spin_once, SpinWait.next_spin_will_yield,
    apply_ite (Prod.snd), Bool.or_eq_true, decide_eq_true_eq, beq_iff_eq]

/- Claim theorems. -/

/-- C1: on a host with more than one logical processor, `spin_once`
decides its action from the post-increment counter value `c`: if
`c >= yield_threshold` it yields; else if `c` is in `[1,3]` it executes
the CPU spin hint and returns; else, for `c` in `[4, yield_threshold)`,
it sleeps (for the backoff duration). -/
theorem spin_once_multicore_policy (s : SpinWait) (cpus : Nat) (hc : 1 < cpus) :
    ((s.spin_once cpus).1.count ≥ s.yield_threshold →
      (s.spin_once cpus).2 = SpinAction.yieldNow) ∧
    ((s.spin_once cpus).1.count < s.yield_threshold →
      1 ≤ (s.spin_once cpus).1.count → (s.spin_once cpus).1.count ≤ 3 →
      (s.spin_once cpus).2 = SpinAction.spinHint) ∧
    ((s.spin_once cpus).1.count < s.yield_threshold →
      4 ≤ (s.spin_once cpus).1.count →
      (s.spin_once cpus).2 =
        SpinAction.sleepNanos (sleepDuration ((s.spin_once cpus).1.count))) := by
  have hne : cpus ≠ 1 := by omega
  rw [spin_once_count, spin_once_snd]
  refine ⟨?_, ?_, ?_⟩
  · intro hge
    rw [if_pos (Or.inl hge)]
  · intro hlt h1 h3
    rw [if_neg (by push_neg; exact ⟨by omega, hne⟩), if_pos (by omega)]
  · intro hlt h4
    rw [if_neg (by push_neg; exact ⟨by omega, hne⟩), if_neg (by omega)]

/-- Witness for C1: a 4-processor host, counter 4, threshold 10; the
post-increment counter is 5, and the call requests the backoff sleep. -/
theorem spin_once_multicore_policy_witness :
    1 < 4 ∧
    ((⟨4, 10⟩ : SpinWait).spin_once 4).2 =
      SpinAction.sleepNanos (sleepDuration (((⟨4, 10⟩ : SpinWait).spin_once 4).1.count)) :=
  ⟨by decide,
    (spin_once_multicore_policy ⟨4, 10⟩ 4 (by decide)).2.2 (by decide) (by decide)⟩

/-- C2: on a host reporting exactly one logical processor, every
`spin_once` call yields — it never spins and never sleeps — whatever the
counter value and threshold. -/
theorem spin_once_single_cpu_yields (s : SpinWait) :
    (s.spin_once 1).2 = SpinAction.yieldNow := by
  rw [spin_once_snd, if_pos (Or.inr rfl)]

/-- C6: `next_spin_will_yield` returns true iff the current counter value
is at least the yield threshold; it is a pure read (its model takes no
state back out and no processor-count input, matching the source, which
only performs one relaxed load). -/
theorem next_spin_will_yield_iff (s : SpinWait) :
    s.next_spin_will_yield = true ↔ s.count ≥ s.yield_threshold := by
  simp [SpinWait.next_spin_will_yield]

/-- C7: `new()` gives count 0 and threshold 10; `with_threshold t` gives
count 0 and threshold `t` with no validation; every freshly constructed
spinner with positive threshold has count 0 and `next_spin_will_yield`
false. -/
theorem construction_spec (t : Nat) :
    SpinWait.new.count = 0 ∧ SpinWait.new.yield_threshold = 10 ∧
    (SpinWait.with_threshold t).count = 0 ∧
    (SpinWait.with_threshold t).yield_threshold = t ∧
    SpinWait.new.next_spin_will_yield = false ∧
    (0 < t → (SpinWait.with_threshold t).next_spin_will_yield = false) := by
  refine ⟨rfl, rfl, rfl, rfl, rfl, ?_⟩
  intro ht
  simp only [SpinWait.with_threshold, SpinWait.next_spin_will_yield,
    decide_eq_false_iff_not]
  omega

/-- Witness for C7 at threshold 7. -/
theorem construction_spec_witness :
    0 < 7 ∧ (SpinWait.with_threshold 7).next_spin_will_yield = false :=
  ⟨by decide, (construction_spec 7).2.2.2.2.2 (by decide)⟩

theorem spin_once_threshold_zero (s : SpinWait) (cpus : Nat)
    (h : s.yield_threshold = 0) :
    (s.spin_once cpus).2 = SpinAction.yieldNow := by
  rw [spin_once_snd, h, if_pos (Or.inl (Nat.zero_le _))]

/-- C9: with threshold 0, the very first `spin_once` call yields, and
every later call (on any host) never takes the spin-hint branch — indeed
it always yields. -/
theorem with_threshold_zero_always_yields (cpus n : Nat) :
    ((SpinWait.with_threshold 0).spin_once cpus).2 = SpinAction.yieldNow ∧
    ((stepN n (SpinWait.with_threshold 0) cpus).spin_once cpus).2 =
      SpinAction.yieldNow ∧
    ((stepN n (SpinWait.with_threshold 0) cpus).spin_once cpus).2 ≠
      SpinAction.spinHint := by
  have h0 : (stepN n (SpinWait.with_threshold 0) cpus).yield_threshold = 0 :=
    stepN_threshold n (SpinWait.with_threshold 0) cpus
  have hy := spin_once_threshold_zero _ cpus h0
  exact ⟨spin_once_threshold_zero _ cpus rfl, hy, by simp [hy]⟩

/-- C4: whenever the `spin_until` loop terminates, the number of predicate
evaluations is exactly one more than the number of wait steps (the
predicate is re-evaluated exactly once after every step and at least
once in total), the last evaluation is the first true one (all earlier
evaluations were false), and the final state is the start state advanced
by exactly that many wait steps (no step happens after a true
evaluation). -/
theorem spin_until_spec (fuel : Nat) (p : Nat → Bool) (k : Nat) (s : SpinWait)
    (cpus : Nat) (s' : SpinWait) (evals steps : Nat)
    (h : SpinWait.spin_until fuel p k s cpus = some (s', evals, steps)) :
    evals = steps + 1 ∧ p (k + steps) = true ∧
    (∀ j, j < steps → p (k + j) = false) ∧ s' = stepN steps s cpus := by
  induction fuel generalizing k s s' evals steps with
  | zero => simp [SpinWait.spin_until] at h
  | succ f ih =>
    rw [SpinWait.spin_until] at h
    by_cases hp : p k = true
    · rw [if_pos hp] at h
      simp only [Option.some.injEq, Prod.mk.injEq] at h
      obtain ⟨h1, h2, h3⟩ := h
      subst h1 h2 h3
      exact ⟨rfl, hp, fun j hj => absurd hj (by omega), rfl⟩
    · rw [if_neg hp] at h
      cases hrec : SpinWait.spin_until f p (k + 1) (s.spin_once cpus).1 cpus with
      | none => rw [hrec] at h; simp at h
      | some v =>
        obtain ⟨s'', e, st⟩ := v
        rw [hrec] at h
        simp only [Option.some.injEq, Prod.mk.injEq] at h
        obtain ⟨h1, h2, h3⟩ := h
        obtain ⟨ihe, ihp, ihf, ihs⟩ := ih (k + 1) (s.spin_once cpus).1 s'' e st hrec
        subst h1 h2 h3
        have hpk : p k = false := by revert hp; cases p k <;> simp
        refine ⟨by omega, ?_, ?_, ihs⟩
        · have hk : k + (st + 1) = (k + 1) + st := by omega
          rw [hk]; exact ihp
        · intro j hj
          cases j with
          | zero => simpa using hpk
          | succ j =>
            have hk : k + (j + 1) = (k + 1) + j := by omega
            rw [hk]; exact ihf j (by omega)

/-- Witness for C4: the condition first holds at its third evaluation;
with fuel 5 the loop stops after 2 wait steps and 3 evaluations. -/
theorem spin_until_spec_witness :
    SpinWait.spin_until 5 exampleCond 0 SpinWait.new 4 = some (⟨2, 10⟩, 3, 2) ∧
    3 = 2 + 1 ∧ exampleCond (0 + 2) = true :=
  ⟨by decide,
    (spin_until_spec 5 exampleCond 0 SpinWait.new 4 ⟨2, 10⟩ 3 2 (by decide)).1,
    (spin_until_spec 5 exampleCond 0 SpinWait.new 4 ⟨2, 10⟩ 3 2 (by decide)).2.1⟩

/-- C5 counterexample: after exactly 2^32 wait steps on a fresh default
spinner the counter reads 0, not 2^32 — `count()` does not return the
number of calls once it reaches the u32 wrap. -/
theorem count_wraps_after_u32Mod_steps :
    (stepN u32Mod SpinWait.new 4).count = 0 ∧ (0 : Nat) ≠ u32Mod := by
  constructor
  · rw [stepN_count u32Mod SpinWait.new 4 u32Mod_pos]
    show (0 + u32Mod) % u32Mod = 0
    rw [Nat.zero_add, Nat.mod_self]
  · have := u32Mod_pos; omega

/-- C5 amended: after `N` wait steps with no reset, `count()` returns
`N mod 2^32`, hence exactly `N` whenever `N < 2^32`; each wait step
increments the counter by exactly 1 modulo 2^32. -/
theorem count_after_n_steps (n cpus : Nat) (h : n < u32Mod) :
    (stepN n SpinWait.new cpus).count = n ∧
    ∀ s : SpinWait, ((s.spin_once cpus).1).count = (s.count + 1) % u32Mod := by
  constructor
  · rw [stepN_count n SpinWait.new cpus u32Mod_pos]
    show (0 + n) % u32Mod = n
    rw [Nat.zero_add, Nat.mod_eq_of_lt h]
  · intro s; exact spin_once_count s cpus

/-- Witness for C5 (amended) at 5 steps on a 2-processor host. -/
theorem count_after_n_steps_witness :
    5 < u32Mod ∧ (stepN 5 SpinWait.new 2).count = 5 :=
  ⟨by decide, (count_after_n_steps 5 2 (by decide)).1⟩

theorem applyOp_threshold (s : SpinWait) (op : SpinOp) :
    (applyOp s op).yield_threshold = s.yield_threshold := by
  cases op with
  | step cpus => exact spin_once_threshold s cpus
  | reset => rfl

theorem applyOps_threshold (s : SpinWait) (ops : List SpinOp) :
    (applyOps s ops).yield_threshold = s.yield_threshold := by
  induction ops generalizing s with
  | nil => rfl
  | cons op ops ih =>
    calc (applyOps s (op :: ops)).yield_threshold
        = (applyOps (applyOp s op) ops).yield_threshold := rfl
      _ = (applyOp s op).yield_threshold := ih _
      _ = s.yield_threshold := applyOp_threshold s op

/-- C8 counterexample: from the reachable counter value 2^32 - 1, one
wait step wraps the counter to 0 — it decreases it, so a wait step does
not always increase the counter. -/
theorem wait_step_decreases_at_wrap :
    (stepN (u32Mod - 1) SpinWait.new 4).count = u32Mod - 1 ∧
    ((stepN (u32Mod - 1) SpinWait.new 4).spin_once 4).1.count = 0 ∧
    0 < u32Mod - 1 := by
  have h1 : (stepN (u32Mod - 1) SpinWait.new 4).count = u32Mod - 1 := by
    rw [stepN_count _ _ _ u32Mod_pos]
    show (0 + (u32Mod - 1)) % u32Mod = u32Mod - 1
    rw [Nat.zero_add, Nat.mod_eq_of_lt (by have := u32Mod_pos; omega)]
  refine ⟨h1, ?_, by decide⟩
  rw [spin_once_count, h1, Nat.sub_add_cancel u32Mod_pos, Nat.mod_self]

/-- C8 amended: `reset()` always restores the counter to 0 and keeps the
threshold; the threshold is unchanged by any sequence of mutating calls;
and a wait step changes the counter exactly by an increment of 1 modulo
2^32 (at counter 2^32 - 1 this wraps to 0 rather than increasing). -/
theorem state_invariants (s : SpinWait) (ops : List SpinOp) :
    s.reset.count = 0 ∧ s.reset.yield_threshold = s.yield_threshold ∧
    (applyOps s ops).yield_threshold = s.yield_threshold ∧
    ∀ cpus, ((s.spin_once cpus).1).count = (s.count + 1) % u32Mod :=
  ⟨rfl, rfl, applyOps_threshold s ops, fun cpus => spin_once_count s cpus⟩

/-- C10: the counter is a u32 whose increment wraps modulo 2^32: after
exactly 2^32 wait steps with no reset the counter reads 0 again and
`next_spin_will_yield` reverts to false for any positive threshold. -/
theorem counter_wraps_mod_two_pow_32 (cpus t : Nat) (ht : 0 < t) :
    (stepN u32Mod (SpinWait.with_threshold t) cpus).count = 0 ∧
    (stepN u32Mod (SpinWait.with_threshold t) cpus).next_spin_will_yield = false ∧
    ∀ s : SpinWait, ((s.spin_once cpus).1).count = (s.count + 1) % u32Mod := by
  have hcnt : (stepN u32Mod (SpinWait.with_threshold t) cpus).count = 0 := by
    rw [stepN_count _ _ _ u32Mod_pos]
    show (0 + u32Mod) % u32Mod = 0
    rw [Nat.zero_add, Nat.mod_self]
  refine ⟨hcnt, ?_, fun s => spin_once_count s cpus⟩
  have hth : (stepN u32Mod (SpinWait.with_threshold t) cpus).yield_threshold = t :=
    stepN_threshold u32Mod (SpinWait.with_threshold t) cpus
  simp only [SpinWait.next_spin_will_yield, hcnt, hth, decide_eq_false_iff_not]
  omega

/-- Witness for C10 at threshold 10 on a 4-processor host. -/
theorem counter_wraps_mod_two_pow_32_witness :
    0 < 10 ∧ (stepN u32Mod (SpinWait.with_threshold 10) 4).count = 0 :=
  ⟨by decide, (counter_wraps_mod_two_pow_32 4 10 (by decide)).1⟩

set_option maxRecDepth 10000 in
/-- C3 counterexample: with threshold 100 on a 4-processor host, the call
whose post-increment iterations is 64 takes the backoff branch but
requests `2 ^ (64 % 64) = 1` nanosecond instead of `2 ^ 64`, and that is
shorter than the `2 ^ 63` nanoseconds requested one call earlier — the
duration is neither `2 ^ iterations` nor non-decreasing past 63. -/
theorem sleep_duration_wraps_at_64 :
    ((stepN 63 (SpinWait.with_threshold 100) 4).spin_once 4).2 =
      SpinAction.sleepNanos 1 ∧
    ((stepN 62 (SpinWait.with_threshold 100) 4).spin_once 4).2 =
      SpinAction.sleepNanos (2 ^ 63) ∧
    (1 : Nat) ≠ 2 ^ 64 ∧ (1 : Nat) < 2 ^ 63 := by
  refine ⟨by decide, by decide, by decide, by decide⟩

/-- C3 amended: on a multi-processor host, a backoff call with
post-increment iterations `c` in `[4, yield_threshold)` requests exactly
`2 ^ c` nanoseconds provided `c < 64` (the u64 shift masks its amount at
64, so the general request is `2 ^ (c % 64)`), and over `[4, 64)` the
requested duration is non-decreasing in `c`. -/
theorem spin_once_backoff_duration (s : SpinWait) (cpus : Nat) (hc : 1 < cpus)
    (h4 : 4 ≤ (s.count + 1) % u32Mod)
    (hlt : (s.count + 1) % u32Mod < s.yield_threshold)
    (h64 : (s.count + 1) % u32Mod < 64) :
    (s.spin_once cpus).2 = SpinAction.sleepNanos (2 ^ ((s.count + 1) % u32Mod)) ∧
    ∀ d, (s.count + 1) % u32Mod ≤ d → d < 64 →
      sleepDuration ((s.count + 1) % u32Mod) ≤ sleepDuration d := by
  constructor
  · rw [spin_once_snd, if_neg (by push_neg; exact ⟨by omega, by omega⟩),
      if_neg (by omega)]
    unfold sleepDuration
    rw [Nat.mod_eq_of_lt h64]
  · intro d hd1 hd2
    unfold sleepDuration
    rw [Nat.mod_eq_of_lt h64, Nat.mod_eq_of_lt hd2]
    exact Nat.pow_le_pow_right (by omega) hd1

/-- Witness for C3 (amended): counter 4, threshold 10, 4 processors; the
post-increment iterations is 5 and the call requests 2^5 nanoseconds. -/
theorem spin_once_backoff_duration_witness :
    1 < 4 ∧ 4 ≤ (4 + 1) % u32Mod ∧ (4 + 1) % u32Mod < 10 ∧
    (4 + 1) % u32Mod < 64 ∧
    ((⟨4, 10⟩ : SpinWait).spin_once 4).2 =
      SpinAction.sleepNanos (2 ^ ((4 + 1) % u32Mod)) :=
  ⟨by decide, by decide, by decide, by decide,
    (spin_once_backoff_duration ⟨4, 10⟩ 4 (by decide) (by decide) (by decide)
      (by decide)).1⟩
